import Mathlib

/-!
Verification of the PSoC 4 CAPSENSE Buttons-and-Slider RTT example
(`main.c`) against its natural-language specification.

The C program is shallowly embedded below:
* the startup sequence of `main` (board init, CAPSENSE init, first scan),
* the outbound tuner envelope `tuner_up_buf` and the send hook
  `rtt_tuner_send`,
* the inbound command reassembler `rtt_tuner_receive` with its static
  `command_packet` buffer and `data_index` cursor,
* the scheduler loop of `main` as an event trace.

Bytes are modelled as `Nat` (the C code never does arithmetic on them, so
no wraparound is involved).  The engine's integrity predicate
`Cy_CapSense_CheckTunerCmdIntegrity` is vendor code outside this
repository and opaque to the core, so it appears as a Boolean-valued
parameter `valid` throughout.
-/

namespace CapsenseRtt

/-! ### Constants from main.c -/

def RTT_TX_HEADER0 : Nat := 0x0D
def RTT_TX_HEADER1 : Nat := 0x0A
def RTT_TX_TAIL0 : Nat := 0x00
def RTT_TX_TAIL1 : Nat := 0xFF
def RTT_TX_TAIL2 : Nat := 0xFF

/-- Size of a tuner command packet.  The vendor constant
`CY_CAPSENSE_COMMAND_PACKET_SIZE` equals 16, matching the declared size of
the static buffer `uint8_t command_packet[16u]` in `rtt_tuner_receive`. -/
def CY_CAPSENSE_COMMAND_PACKET_SIZE : Nat := 16

/-- Vendor success code for `cy_rslt_t` results (`cybsp_init`). -/
def CY_RSLT_SUCCESS : Nat := 0

/-- Vendor success code for `cy_capsense_status_t` results. -/
def CY_CAPSENSE_STATUS_SUCCESS : Nat := 0

/-! ### Startup sequence (`main`, `initialize_capsense`)

`initialize_capsense` calls `Cy_CapSense_Init`; only on success does it set
up the interrupt and call `Cy_CapSense_Enable`.  Its final `if (status !=
CY_CAPSENSE_STATUS_SUCCESS)` branch contains only a comment — the function
returns normally in every case.  The two engine status results are inputs
of the model; the function value is the final `status` variable. -/

def initialize_capsense (initStatus enableStatus : Nat) : Nat :=
  if initStatus = CY_CAPSENSE_STATUS_SUCCESS then enableStatus else initStatus

/-- Outcome of `main`'s pre-loop phase: either execution halts in
`CY_ASSERT(CY_ASSERT_FAILED)` or it reaches `Cy_CapSense_ScanAllWidgets`
and the infinite `for (;;)` scan loop. -/
inductive StartupOutcome where
  | assertHalt : StartupOutcome
  | scanLoop : StartupOutcome
deriving DecidableEq

/-- The pre-loop part of `main`: `cybsp_init` failure hits
`CY_ASSERT(CY_ASSERT_FAILED)` and halts; otherwise `initialize_capsense`
runs (its status is not consulted by `main`), the tuner callbacks are
installed, the first scan starts, and control enters the scan loop. -/
def main_startup (bspResult initStatus enableStatus : Nat) : StartupOutcome :=
  if bspResult ≠ CY_RSLT_SUCCESS then StartupOutcome.assertHalt
  else
    let _ := initialize_capsense initStatus enableStatus
    StartupOutcome.scanLoop

/-! ### Outbound envelope (`tuner_up_buf`, `rtt_tuner_send`)

`rtt_tuner_data_t` is `{ uint8_t header[2]; uint8_t tuner_data[S];
uint8_t tail[3]; }` where `S = sizeof(cy_capsense_tuner)` is the
engine-defined telemetry snapshot size. -/

structure rtt_tuner_data_t where
  header : List Nat
  tuner_data : List Nat
  tail : List Nat
deriving DecidableEq

/-- The static initializer of `tuner_up_buf`, for snapshot size `S`. -/
def tuner_up_buf (S : Nat) : rtt_tuner_data_t :=
  { header := [RTT_TX_HEADER0, RTT_TX_HEADER1]
    tuner_data := List.replicate S 0
    tail := [RTT_TX_TAIL0, RTT_TX_TAIL1, RTT_TX_TAIL2] }

/-- The byte sequence of the outbound envelope, in memory order. -/
def envelope (up : rtt_tuner_data_t) : List Nat :=
  up.header ++ up.tuner_data ++ up.tail

/-- `sizeof(tuner_up_buf)` = 2 header bytes + S payload bytes + 3 tail
bytes. -/
def envelope_size (S : Nat) : Nat := 2 + S + 3

/-- The `RdOff`/`WrOff` metadata of the RTT up-buffer descriptor
(`SEGGER_RTT_BUFFER_UP`) touched by the send hook. -/
structure SEGGER_RTT_BUFFER_UP where
  RdOff : Nat
  WrOff : Nat
deriving DecidableEq

/-- `rtt_tuner_send`: inside `SEGGER_RTT_LOCK()`/`UNLOCK()` it sets
`RdOff := 0`, `WrOff := sizeof(tuner_up_buf)` and copies the current
telemetry snapshot (`cy_capsense_tuner`, `S` bytes) over the
`tuner_data` payload field.  The lock makes the whole hook one atomic
state transformation, which is how it is modelled: a single function from
(envelope, descriptor) to (envelope, descriptor). -/
def rtt_tuner_send (S : Nat) (snapshot : List Nat)
    (up : rtt_tuner_data_t) (buffer : SEGGER_RTT_BUFFER_UP) :
    rtt_tuner_data_t × SEGGER_RTT_BUFFER_UP :=
  let _ := buffer
  ({ header := up.header, tuner_data := snapshot, tail := up.tail },
   { RdOff := 0, WrOff := envelope_size S })

/-- `n` consecutive invocations of the send hook with the same snapshot. -/
def sendN (S : Nat) (snapshot : List Nat) :
    Nat → rtt_tuner_data_t × SEGGER_RTT_BUFFER_UP →
    rtt_tuner_data_t × SEGGER_RTT_BUFFER_UP
  | 0, st => st
  | n + 1, st => sendN S snapshot n (rtt_tuner_send S snapshot st.1 st.2)

/-! ### Inbound command reassembler (`rtt_tuner_receive`)

The static locals `command_packet[16]` and `data_index` persist across
invocations; they form the state.  `shifts` is a ghost instrumentation
counter recording how many resynchronization shifts have occurred (the
spec's test scenarios count them); it influences nothing else. -/

structure RxState where
  command_packet : List Nat
  data_index : Nat
  shifts : Nat
deriving DecidableEq

/-- The state at program start: `command_packet[16] = {0}`,
`data_index = 0`. -/
def rxFresh : RxState :=
  { command_packet := List.replicate 16 0, data_index := 0, shifts := 0 }

/-- The resynchronization shift loop
`for (i = 0; i < 15; i++) command_packet[i] = command_packet[i+1];`
rendered recursively: every byte at index `i+1` moves to index `i`, the
last byte stays in place (so it appears twice). -/
def shiftLeft : List Nat → List Nat
  | [] => []
  | [a] => [a]
  | _ :: b :: rest => b :: shiftLeft (b :: rest)

/-- One iteration of the drain loop body of `rtt_tuner_receive` on byte
`b`: store at the cursor, advance, and if the window is full run the
integrity check — on success reset the cursor (the caller then publishes
the packet and breaks), on failure decrement the cursor and shift.
Returns the new state and whether the integrity check succeeded. -/
def processByte (valid : List Nat → Bool) (s : RxState) (b : Nat) :
    RxState × Bool :=
  let buf := s.command_packet.set s.data_index b
  let idx := s.data_index + 1
  if idx = CY_CAPSENSE_COMMAND_PACKET_SIZE then
    if valid buf then
      ({ command_packet := buf, data_index := 0, shifts := s.shifts }, true)
    else
      ({ command_packet := shiftLeft buf, data_index := idx - 1,
         shifts := s.shifts + 1 }, false)
  else
    ({ command_packet := buf, data_index := idx, shifts := s.shifts }, false)

/-- `rtt_tuner_receive`: drain the currently available bytes (`avail`,
the contents of the RTT down channel) one at a time; on the first
successful integrity check set `*packet := &command_packet[0]` and
`*tuner_packet := &cy_capsense_tuner` and break.  Returns the final
reassembler state, the bytes left unread in the channel, and the output
pointers (`none` models both pointers left untouched). -/
def rtt_tuner_receive (valid : List Nat → Bool) (snapshot : List Nat)
    (s : RxState) (avail : List Nat) :
    RxState × List Nat × Option (List Nat × List Nat) :=
  match avail with
  | [] => (s, [], none)
  | b :: rest =>
    let r := processByte valid s b
    if r.2 then (r.1, rest, some (r.1.command_packet, snapshot))
    else rtt_tuner_receive valid snapshot r.1 rest

/-- State evolution when bytes are fed one at a time (each invocation of
the hook sees exactly one available byte). -/
def runBytes (valid : List Nat → Bool) (s : RxState) (bs : List Nat) :
    RxState :=
  bs.foldl (fun st b => (processByte valid st b).1) s

/-- Whether some complete window passes the integrity check while
draining `bs` from state `s`. -/
def anySuccess (valid : List Nat → Bool) : RxState → List Nat → Bool
  | _, [] => false
  | s, b :: rest =>
    let r := processByte valid s b
    r.2 || anySuccess valid r.1 rest

/-- The currently assembled window: the first `data_index` bytes of the
buffer. -/
def window (s : RxState) : List Nat := s.command_packet.take s.data_index

/-- Reachability invariant of the reassembler state: the buffer has its
declared 16 bytes and the cursor is at most 15 after every completed
iteration. -/
def RxInv (s : RxState) : Prop :=
  s.command_packet.length = 16 ∧ s.data_index ≤ 15

/-- A bounds-checked array store: `none` models the out-of-range case of
`command_packet[data_index++] = byte`. -/
def setChecked (l : List Nat) (i : Nat) (b : Nat) : Option (List Nat) :=
  if i < l.length then some (l.set i b) else none

/-- `processByte` with the buffer store bounds-checked: `none` exactly
when the store would be out of bounds of the 16-byte buffer. -/
def processByteChecked (valid : List Nat → Bool) (s : RxState) (b : Nat) :
    Option (RxState × Bool) :=
  match setChecked s.command_packet s.data_index b with
  | none => none
  | some buf =>
    let idx := s.data_index + 1
    if idx = CY_CAPSENSE_COMMAND_PACKET_SIZE then
      if valid buf then
        some ({ command_packet := buf, data_index := 0,
                shifts := s.shifts }, true)
      else
        some ({ command_packet := shiftLeft buf, data_index := idx - 1,
                shifts := s.shifts + 1 }, false)
    else
      some ({ command_packet := buf, data_index := idx,
              shifts := s.shifts }, false)

/-! ### Scheduler loop (`main`)

The loop body observes `Cy_CapSense_IsBusy`; when it reports not-busy it
runs `Cy_CapSense_ProcessAllWidgets`, then `Cy_CapSense_RunTuner`, then
`Cy_CapSense_ScanAllWidgets`.  The engine is abstracted by the sequence
of busy observations; the trace records the calls in program order. -/

inductive Ev where
  | scan : Ev
  | busyCheck : Bool → Ev
  | process : Ev
  | tuner : Ev
deriving DecidableEq

/-- The event trace of the `for (;;)` loop, driven by the sequence of
busy-poll results. -/
def schedTrace : List Bool → List Ev
  | [] => []
  | true :: bs => Ev.busyCheck true :: schedTrace bs
  | false :: bs =>
    Ev.busyCheck false :: Ev.process :: Ev.tuner :: Ev.scan :: schedTrace bs

/-- The event trace of `main` from the first `Cy_CapSense_ScanAllWidgets`
call on. -/
def mainTrace (bs : List Bool) : List Ev :=
  Ev.scan :: schedTrace bs

/-! ## Theorems -/

/-- Helper: the envelope part of the state after at least one send is
fully determined by the snapshot and the initial header/tail. -/
theorem sendN_succ_up (S : Nat) (snapshot : List Nat) :
    ∀ (n : Nat) (st : rtt_tuner_data_t × SEGGER_RTT_BUFFER_UP),
    (sendN S snapshot (n + 1) st).1 =
      { header := st.1.header, tuner_data := snapshot, tail := st.1.tail } := by
  intro n
  induction n with
  | zero => intro st; rfl
  | succ m ih =>
    intro st
    show (sendN S snapshot (m + 1) (rtt_tuner_send S snapshot st.1 st.2)).1 = _
    rw [ih]
    rfl

/-- Helper: header and tail of the envelope are preserved by any number
of sends. -/
theorem sendN_header_tail (S : Nat) (snapshot : List Nat) :
    ∀ (n : Nat) (st : rtt_tuner_data_t × SEGGER_RTT_BUFFER_UP),
    (sendN S snapshot n st).1.header = st.1.header ∧
      (sendN S snapshot n st).1.tail = st.1.tail := by
  intro n
  induction n with
  | zero => intro st; exact ⟨rfl, rfl⟩
  | succ m ih =>
    intro st
    have h := ih (rtt_tuner_send S snapshot st.1 st.2)
    exact ⟨h.1, h.2⟩

/-- Helper: the shift loop preserves the buffer length. -/
theorem shiftLeft_length : ∀ l : List Nat, (shiftLeft l).length = l.length
  | [] => rfl
  | [_] => rfl
  | a :: b :: rest => by
    have ih := shiftLeft_length (b :: rest)
    show (b :: shiftLeft (b :: rest)).length = (a :: b :: rest).length
    simp only [List.length_cons] at ih ⊢
    omega

/-- Helper: after the shift loop, the first `length - 1` buffer slots
hold the old bytes 1 onward. -/
theorem shiftLeft_take : ∀ l : List Nat,
    (shiftLeft l).take (l.length - 1) = l.drop 1
  | [] => rfl
  | [_] => rfl
  | a :: b :: rest => by
    have ih := shiftLeft_take (b :: rest)
    show (b :: shiftLeft (b :: rest)).take ((a :: b :: rest).length - 1) =
      (a :: b :: rest).drop 1
    simp only [List.length_cons, Nat.add_sub_cancel] at ih ⊢
    rw [List.take_succ_cons, ih]
    simp

/-- Helper: slot `i` after the shift loop holds the old byte `i + 1`. -/
theorem shiftLeft_getD : ∀ (l : List Nat) (i : Nat), i + 1 < l.length →
    (shiftLeft l).getD i 0 = l.getD (i + 1) 0
  | [], i, h => by simp at h
  | [_], i, h => by simp at h
  | a :: b :: rest, 0, _ => rfl
  | a :: b :: rest, i + 1, h => by
    have ih := shiftLeft_getD (b :: rest) i (by
      simp only [List.length_cons] at h ⊢; omega)
    show (b :: shiftLeft (b :: rest)).getD (i + 1) 0 =
      (a :: b :: rest).getD (i + 2) 0
    simpa using ih

/-- Helper: storing at the cursor and taking one more byte appends the
stored byte to the window. -/
theorem take_set_succ : ∀ (l : List Nat) (d b : Nat), d < l.length →
    (l.set d b).take (d + 1) = l.take d ++ [b]
  | [], d, b, h => by simp at h
  | x :: xs, 0, b, _ => by simp
  | x :: xs, d + 1, b, h => by
    have ih := take_set_succ xs d b (by
      simp only [List.length_cons] at h; omega)
    simp only [List.set_cons_succ, List.take_succ_cons, ih, List.cons_append]

/-- Helper: storing into slot 15 of a full 16-byte buffer yields the old
first 15 bytes followed by the new byte. -/
theorem set_last_of_full (l : List Nat) (b : Nat) (h : l.length = 16) :
    l.set 15 b = l.take 15 ++ [b] := by
  have h15 : (15 : Nat) < l.length := by omega
  have := take_set_succ l 15 b h15
  rwa [show (15 : Nat) + 1 = 16 from rfl, ← h, ← List.length_set l 15 b,
    List.take_length] at this

/-- Helper: the window has exactly `data_index` bytes on invariant
states. -/
theorem window_length (s : RxState) (h : RxInv s) :
    (window s).length = s.data_index := by
  obtain ⟨h1, h2⟩ := h
  simp only [window, List.length_take]
  omega

/-- Helper: with the window not yet full, an iteration just stores the
byte and advances the cursor. -/
theorem processByte_lt (valid : List Nat → Bool) (s : RxState) (b : Nat)
    (hc : s.data_index < 15) :
    processByte valid s b =
      ({ command_packet := s.command_packet.set s.data_index b,
         data_index := s.data_index + 1, shifts := s.shifts }, false) := by
  have h16 : s.data_index + 1 ≠ 16 := by omega
  simp [processByte, CY_CAPSENSE_COMMAND_PACKET_SIZE, h16]

/-- Helper: with the window not yet full, an iteration appends the byte
to the window. -/
theorem window_processByte_lt (valid : List Nat → Bool) (s : RxState)
    (b : Nat) (hlen : s.command_packet.length = 16)
    (hc : s.data_index < 15) :
    window (processByte valid s b).1 = window s ++ [b] := by
  rw [processByte_lt valid s b hc]
  exact take_set_succ s.command_packet s.data_index b (by omega)

/-- Helper: the byte completing the window, when the check passes, resets
the cursor and leaves the full window in the buffer. -/
theorem processByte_full_success (valid : List Nat → Bool) (s : RxState)
    (b : Nat) (hlen : s.command_packet.length = 16)
    (hc : s.data_index = 15) (hv : valid (window s ++ [b]) = true) :
    processByte valid s b =
      ({ command_packet := window s ++ [b], data_index := 0,
         shifts := s.shifts }, true) := by
  have hbuf : s.command_packet.set 15 b = window s ++ [b] := by
    rw [window, hc, set_last_of_full s.command_packet b hlen]
  simp [processByte, CY_CAPSENSE_COMMAND_PACKET_SIZE, hc, hbuf, hv]

/-- Helper: the byte completing the window, when the check fails,
decrements the cursor and shifts the buffer. -/
theorem processByte_full_fail (valid : List Nat → Bool) (s : RxState)
    (b : Nat) (hlen : s.command_packet.length = 16)
    (hc : s.data_index = 15) (hv : valid (window s ++ [b]) = false) :
    processByte valid s b =
      ({ command_packet := shiftLeft (window s ++ [b]), data_index := 15,
         shifts := s.shifts + 1 }, false) := by
  have hbuf : s.command_packet.set 15 b = window s ++ [b] := by
    rw [window, hc, set_last_of_full s.command_packet b hlen]
  simp [processByte, CY_CAPSENSE_COMMAND_PACKET_SIZE, hc, hbuf, hv]

/-- Helper: a full failed window has 16 bytes. -/
theorem window_full_length (s : RxState) (b : Nat)
    (hlen : s.command_packet.length = 16) (hc : s.data_index = 15) :
    (window s ++ [b]).length = 16 := by
  rw [List.length_append, window_length s ⟨hlen, by omega⟩, hc]
  simp

/-- Helper: the reachability invariant is preserved by each iteration. -/
theorem processByte_inv (valid : List Nat → Bool) (s : RxState) (b : Nat)
    (h : RxInv s) : RxInv (processByte valid s b).1 := by
  obtain ⟨h1, h2⟩ := h
  rcases Nat.lt_or_ge s.data_index 15 with hc | hc
  · rw [processByte_lt valid s b hc]
    refine ⟨?_, ?_⟩
    · show (s.command_packet.set s.data_index b).length = 16
      simp [h1]
    · show s.data_index + 1 ≤ 15
      omega
  · have hc' : s.data_index = 15 := by omega
    have hw := window_full_length s b h1 hc'
    cases hv : valid (window s ++ [b]) with
    | false =>
      rw [processByte_full_fail valid s b h1 hc' hv]
      refine ⟨?_, ?_⟩
      · show (shiftLeft (window s ++ [b])).length = 16
        rw [shiftLeft_length, hw]
      · show (15 : Nat) ≤ 15
        exact Nat.le_refl 15
    | true =>
      rw [processByte_full_success valid s b h1 hc' hv]
      exact ⟨hw, Nat.zero_le 15⟩

/-- Helper: the reachability invariant holds along any byte sequence. -/
theorem runBytes_inv (valid : List Nat → Bool) :
    ∀ (bs : List Nat) (s : RxState), RxInv s → RxInv (runBytes valid s bs)
  | [], _, h => h
  | b :: rest, s, h =>
    runBytes_inv valid rest (processByte valid s b).1
      (processByte_inv valid s b h)

/-- Helper: the program's initial reassembler state satisfies the
invariant. -/
theorem rxFresh_inv : RxInv rxFresh :=
  ⟨by decide, by decide⟩

/-- Helper: on invariant states the bounds-checked store succeeds and the
checked iteration agrees with the total model. -/
theorem processByteChecked_eq (valid : List Nat → Bool) (s : RxState)
    (b : Nat) (h : RxInv s) :
    processByteChecked valid s b = some (processByte valid s b) := by
  obtain ⟨h1, h2⟩ := h
  have hlt : s.data_index < s.command_packet.length := by omega
  simp only [processByteChecked, setChecked, if_pos hlt, processByte]
  by_cases h16 : s.data_index + 1 = CY_CAPSENSE_COMMAND_PACKET_SIZE
  · by_cases hv : valid (s.command_packet.set s.data_index b) = true
    · simp [h16, hv]
    · simp [h16, hv]
  · simp [h16]

/-- Helper: when an iteration reports success, the buffer passed the
integrity check and the cursor was reset to 0. -/
theorem processByte_success (valid : List Nat → Bool) (s : RxState)
    (b : Nat) (h : (processByte valid s b).2 = true) :
    valid (processByte valid s b).1.command_packet = true ∧
      (processByte valid s b).1.data_index = 0 := by
  by_cases h16 : s.data_index + 1 = CY_CAPSENSE_COMMAND_PACKET_SIZE
  · by_cases hv : valid (s.command_packet.set s.data_index b) = true
    · simp [processByte, h16, hv]
    · simp [processByte, h16, hv] at h
  · simp [processByte, h16] at h

/-- Helper: dropping one byte off a nonempty list distributes over an
append. -/
theorem drop_one_append (l1 l2 : List Nat) (h : l1 ≠ []) :
    (l1 ++ l2).drop 1 = l1.drop 1 ++ l2 := by
  cases l1 with
  | nil => exact absurd rfl h
  | cons a t => simp

/-- Helper: a drain that consumed everything without success composes
with further input. -/
theorem rtt_tuner_receive_append (valid : List Nat → Bool)
    (snapshot : List Nat) :
    ∀ (xs : List Nat) (s s1 : RxState) (ys : List Nat),
      rtt_tuner_receive valid snapshot s xs = (s1, [], none) →
      rtt_tuner_receive valid snapshot s (xs ++ ys) =
        rtt_tuner_receive valid snapshot s1 ys
  | [], s, s1, ys, h => by
    have hs : s = s1 := congrArg (fun p => p.1) h
    rw [List.nil_append, hs]
  | b :: rest, s, s1, ys, h => by
    cases hem : (processByte valid s b).2 with
    | true =>
      rw [show rtt_tuner_receive valid snapshot s (b :: rest) =
          ((processByte valid s b).1, rest,
            some ((processByte valid s b).1.command_packet, snapshot)) from
        by simp [rtt_tuner_receive, hem]] at h
      simp [Prod.ext_iff] at h
    | false =>
      have hrec2 : rtt_tuner_receive valid snapshot s ((b :: rest) ++ ys) =
          rtt_tuner_receive valid snapshot (processByte valid s b).1
            (rest ++ ys) := by
        simp [rtt_tuner_receive, hem]
      rw [show rtt_tuner_receive valid snapshot s (b :: rest) =
          rtt_tuner_receive valid snapshot (processByte valid s b).1 rest from
        by simp [rtt_tuner_receive, hem]] at h
      rw [hrec2]
      exact rtt_tuner_receive_append valid snapshot rest
        (processByte valid s b).1 s1 ys h

/-- Helper: while every complete window fails the integrity check, the
drain consumes all bytes, emits nothing, and the reassembler state ends
holding the last up-to-15 bytes of the virtual stream
`window s ++ bs`, with one resync shift per failed window. -/
theorem drain_no_success (valid : List Nat → Bool) (snapshot : List Nat) :
    ∀ (bs : List Nat) (s : RxState), RxInv s →
      (∀ j, j + 16 ≤ (window s ++ bs).length →
        valid (((window s ++ bs).drop j).take 16) = false) →
      ∃ s2 : RxState,
        rtt_tuner_receive valid snapshot s bs = (s2, [], none) ∧
        RxInv s2 ∧
        s2.data_index = min (window s ++ bs).length 15 ∧
        window s2 = (window s ++ bs).drop ((window s ++ bs).length - 15) ∧
        s2.shifts = s.shifts + ((window s ++ bs).length - 15)
  | [], s, hInv, hchk => by
    obtain ⟨h1, h2⟩ := hInv
    have hwl := window_length s ⟨h1, h2⟩
    have h0 : (window s ++ ([] : List Nat)).length - 15 = 0 := by
      rw [List.append_nil, hwl]; omega
    refine ⟨s, rfl, ⟨h1, h2⟩, ?_, ?_, ?_⟩
    · rw [List.append_nil, hwl]; omega
    · rw [h0, List.drop_zero, List.append_nil]
    · rw [h0]; omega
  | b :: rest, s, hInv, hchk => by
    obtain ⟨h1, h2⟩ := hInv
    rcases Nat.lt_or_ge s.data_index 15 with hc | hc
    · -- window not yet full: the byte is appended, no check occurs
      have hpb := processByte_lt valid s b hc
      have hem : (processByte valid s b).2 = false := by rw [hpb]
      have hwin := window_processByte_lt valid s b h1 hc
      have hInv1 := processByte_inv valid s b ⟨h1, h2⟩
      have hsh : (processByte valid s b).1.shifts = s.shifts := by rw [hpb]
      have hrec : rtt_tuner_receive valid snapshot s (b :: rest) =
          rtt_tuner_receive valid snapshot (processByte valid s b).1 rest := by
        simp [rtt_tuner_receive, hem]
      have hassoc : window (processByte valid s b).1 ++ rest =
          window s ++ (b :: rest) := by
        rw [hwin]; simp
      obtain ⟨s2, ha, hb', hcurs, hwin2, hshifts⟩ :=
        drain_no_success valid snapshot rest (processByte valid s b).1 hInv1
          (by rw [hassoc]; exact hchk)
      refine ⟨s2, by rw [hrec]; exact ha, hb', ?_, ?_, ?_⟩
      · rw [← hassoc]; exact hcurs
      · rw [← hassoc]; exact hwin2
      · rw [← hassoc, hshifts, hsh]
    · -- window full: the arriving byte completes a (failing) check
      have hc' : s.data_index = 15 := by omega
      have hwl : (window s).length = 15 := by
        rw [window_length s ⟨h1, h2⟩, hc']
      have hfail : valid (window s ++ [b]) = false := by
        have h0 := hchk 0 (by
          rw [List.length_append, hwl, List.length_cons]; omega)
        rw [List.drop_zero, List.take_append_eq_append_take,
          List.take_of_length_le (by rw [hwl]; omega), hwl] at h0
        simpa using h0
      have hpb := processByte_full_fail valid s b h1 hc' hfail
      have hem : (processByte valid s b).2 = false := by rw [hpb]
      have hInv1 := processByte_inv valid s b ⟨h1, h2⟩
      have hw16 := window_full_length s b h1 hc'
      have hwin1 : window (processByte valid s b).1 =
          (window s ++ [b]).drop 1 := by
        rw [hpb]
        show (shiftLeft (window s ++ [b])).take 15 = _
        have h := shiftLeft_take (window s ++ [b])
        rw [hw16] at h
        exact h
      have hvirt : window (processByte valid s b).1 ++ rest =
          (window s ++ (b :: rest)).drop 1 := by
        rw [hwin1, show window s ++ (b :: rest) =
            (window s ++ [b]) ++ rest from by simp,
          drop_one_append (window s ++ [b]) rest
            (by intro hh; rw [hh] at hw16; simp at hw16)]
      have hrec : rtt_tuner_receive valid snapshot s (b :: rest) =
          rtt_tuner_receive valid snapshot (processByte valid s b).1 rest := by
        simp [rtt_tuner_receive, hem]
      have hlen_virt : (window s ++ (b :: rest)).length = 16 + rest.length := by
        rw [List.length_append, hwl, List.length_cons]; omega
      have hlen1 : (window (processByte valid s b).1 ++ rest).length =
          15 + rest.length := by
        rw [hvirt, List.length_drop, hlen_virt]
        omega
      have hchk1 : ∀ j,
          j + 16 ≤ (window (processByte valid s b).1 ++ rest).length →
          valid (((window (processByte valid s b).1 ++ rest).drop j).take 16) =
            false := by
        intro j hj
        rw [hlen1] at hj
        rw [hvirt, List.drop_drop]
        exact hchk (1 + j) (by rw [hlen_virt]; omega)
      obtain ⟨s2, ha, hb', hcurs, hwin2, hshifts⟩ :=
        drain_no_success valid snapshot rest (processByte valid s b).1 hInv1
          hchk1
      have hsh1 : (processByte valid s b).1.shifts = s.shifts + 1 := by
        rw [hpb]
      refine ⟨s2, by rw [hrec]; exact ha, hb', ?_, ?_, ?_⟩
      · rw [hcurs, hlen1, hlen_virt]; omega
      · rw [hwin2, hlen1, hvirt, List.drop_drop, hlen_virt]
        congr 1
        omega
      · rw [hshifts, hlen1, hsh1, hlen_virt]
        omega

/-- C1 counterexample: `Cy_CapSense_Init` reporting failure (status 1)
while `cybsp_init` succeeds does NOT halt the system — `main` still
reaches `Cy_CapSense_ScanAllWidgets` and the scan loop, because the
failure branch of `initialize_capsense` contains only a comment. -/
theorem engine_init_failure_reaches_scan_loop :
    initialize_capsense 1 1 ≠ CY_CAPSENSE_STATUS_SUCCESS ∧
      main_startup CY_RSLT_SUCCESS 1 1 = StartupOutcome.scanLoop := by
  constructor
  · decide
  · rfl

/-- C1 (amended): the startup sequence halts in a hard assertion exactly
when board initialization (`cybsp_init`) fails; an engine
initialization/enable failure is tolerated (the failing-status branch of
`initialize_capsense` is an empty comment block) and execution proceeds
into the scan loop. -/
theorem main_startup_assert_iff_bsp_failure
    (bspResult initStatus enableStatus : Nat) :
    main_startup bspResult initStatus enableStatus = StartupOutcome.assertHalt ↔
      bspResult ≠ CY_RSLT_SUCCESS := by
  unfold main_startup
  by_cases h : bspResult ≠ CY_RSLT_SUCCESS <;> simp [h]

/-- C6: after the send hook runs, the outbound envelope is bit-exact —
header byte 0 = 0x0D, byte 1 = 0x0A, then the telemetry snapshot, then
the trailer bytes 0x00, 0xFF, 0xFF — provided the envelope's header and
tail fields still hold their startup constants. -/
theorem rtt_tuner_send_envelope_bytes (S : Nat) (snapshot : List Nat)
    (up : rtt_tuner_data_t) (bufferUp : SEGGER_RTT_BUFFER_UP)
    (hh : up.header = [RTT_TX_HEADER0, RTT_TX_HEADER1])
    (ht : up.tail = [RTT_TX_TAIL0, RTT_TX_TAIL1, RTT_TX_TAIL2]) :
    envelope (rtt_tuner_send S snapshot up bufferUp).1 =
      RTT_TX_HEADER0 :: RTT_TX_HEADER1 ::
        (snapshot ++ [RTT_TX_TAIL0, RTT_TX_TAIL1, RTT_TX_TAIL2]) := by
  simp [envelope, rtt_tuner_send, hh, ht]

/-- C6 witness: the concrete scenario of the spec — snapshot
`{0x01, 0x02}` with `S = 2` yields the envelope
`[0x0D, 0x0A, 0x01, 0x02, 0x00, 0xFF, 0xFF]`. -/
theorem rtt_tuner_send_envelope_bytes_witness :
    (tuner_up_buf 2).header = [RTT_TX_HEADER0, RTT_TX_HEADER1] ∧
      (tuner_up_buf 2).tail = [RTT_TX_TAIL0, RTT_TX_TAIL1, RTT_TX_TAIL2] ∧
      envelope (rtt_tuner_send 2 [0x01, 0x02] (tuner_up_buf 2) ⟨0, 0⟩).1 =
        [0x0D, 0x0A, 0x01, 0x02, 0x00, 0xFF, 0xFF] :=
  ⟨rfl, rfl,
    (rtt_tuner_send_envelope_bytes 2 [0x01, 0x02] (tuner_up_buf 2) ⟨0, 0⟩
      rfl rfl).trans (by decide)⟩

/-- C7: every invocation of the send hook (one atomic step under the
transport lock) sets the outbound descriptor's read offset to 0 and its
write length to the full envelope size, overwrites exactly the payload
field with the snapshot, and leaves the header and tail fields of the
envelope unchanged. -/
theorem rtt_tuner_send_frame (S : Nat) (snapshot : List Nat)
    (up : rtt_tuner_data_t) (bufferUp : SEGGER_RTT_BUFFER_UP) :
    (rtt_tuner_send S snapshot up bufferUp).2.RdOff = 0 ∧
      (rtt_tuner_send S snapshot up bufferUp).2.WrOff = envelope_size S ∧
      (rtt_tuner_send S snapshot up bufferUp).1.header = up.header ∧
      (rtt_tuner_send S snapshot up bufferUp).1.tail = up.tail ∧
      (rtt_tuner_send S snapshot up bufferUp).1.tuner_data = snapshot :=
  ⟨rfl, rfl, rfl, rfl, rfl⟩

/-- C8: publishing is idempotent — any positive number of send-hook
invocations with an unchanged snapshot leaves the envelope bytes
identical to a single invocation, and the header and tail bytes never
change across any number of invocations. -/
theorem sendN_idempotent (S : Nat) (snapshot : List Nat) (n : Nat)
    (st : rtt_tuner_data_t × SEGGER_RTT_BUFFER_UP) :
    envelope (sendN S snapshot (n + 1) st).1 =
        envelope (sendN S snapshot 1 st).1 ∧
      (sendN S snapshot n st).1.header = st.1.header ∧
      (sendN S snapshot n st).1.tail = st.1.tail := by
  refine ⟨?_, (sendN_header_tail S snapshot n st).1,
    (sendN_header_tail S snapshot n st).2⟩
  rw [sendN_succ_up, sendN_succ_up]

/-- C3: whenever the assembled window reaches the packet size and the
integrity predicate fails, the reassembler decrements the cursor by
exactly 1 (from 16 back to `packet_size - 1 = 15`) and shifts the buffer
left by one byte: slots `[0, 15)` end up equal to bytes 1 through 15 of
the failed window (each byte at index `i + 1` moves to index `i`). -/
theorem resync_shift_spec (valid : List Nat → Bool) (s : RxState) (b : Nat)
    (hlen : s.command_packet.length = 16) (hfull : s.data_index = 15)
    (hfail : valid (window s ++ [b]) = false) :
    (processByte valid s b).1.data_index =
        CY_CAPSENSE_COMMAND_PACKET_SIZE - 1 ∧
      (processByte valid s b).1.command_packet.take 15 =
        (window s ++ [b]).drop 1 ∧
      ∀ i, i < 15 →
        (processByte valid s b).1.command_packet.getD i 0 =
          (window s ++ [b]).getD (i + 1) 0 := by
  have hw := window_full_length s b hlen hfull
  rw [processByte_full_fail valid s b hlen hfull hfail]
  refine ⟨rfl, ?_, ?_⟩
  · have h := shiftLeft_take (window s ++ [b])
    rw [hw] at h
    exact h
  · intro i hi
    exact shiftLeft_getD (window s ++ [b]) i (by omega)

/-- C3 witness: a concrete full window (buffer `[0,…,15]`, cursor 15,
incoming byte 99) with an always-failing predicate. -/
theorem resync_shift_spec_witness :
    (RxState.mk (List.range 16) 15 0).command_packet.length = 16 ∧
      ((fun _ => false : List Nat → Bool)
          (window (RxState.mk (List.range 16) 15 0) ++ [99]) = false) ∧
      ((processByte (fun _ => false) (RxState.mk (List.range 16) 15 0)
            99).1.data_index = CY_CAPSENSE_COMMAND_PACKET_SIZE - 1 ∧
        (processByte (fun _ => false) (RxState.mk (List.range 16) 15 0)
            99).1.command_packet.take 15 =
          (window (RxState.mk (List.range 16) 15 0) ++ [99]).drop 1 ∧
        ∀ i, i < 15 →
          (processByte (fun _ => false) (RxState.mk (List.range 16) 15 0)
              99).1.command_packet.getD i 0 =
            (window (RxState.mk (List.range 16) 15 0) ++ [99]).getD
              (i + 1) 0) :=
  ⟨by decide, rfl,
    resync_shift_spec (fun _ => false) (RxState.mk (List.range 16) 15 0) 99
      (by decide) rfl rfl⟩

/-- C4: for every sequence of bytes fed one at a time into the
reassembler from program start, the fill cursor stays between 0 and the
packet size after every byte. -/
theorem data_index_bounded (valid : List Nat → Bool) (bs : List Nat) :
    (runBytes valid rxFresh bs).data_index ≤
      CY_CAPSENSE_COMMAND_PACKET_SIZE := by
  have h := (runBytes_inv valid bs rxFresh rxFresh_inv).2
  unfold CY_CAPSENSE_COMMAND_PACKET_SIZE
  omega

/-- C10: in every reachable state of the reassembler the buffer store
`command_packet[data_index++] = byte` happens at an index strictly below
16 — the bounds-checked embedding of the write never takes its
out-of-range branch and agrees with the total model. -/
theorem command_packet_write_in_bounds (valid : List Nat → Bool)
    (bs : List Nat) (b : Nat) :
    (runBytes valid rxFresh bs).data_index < 16 ∧
      processByteChecked valid (runBytes valid rxFresh bs) b =
        some (processByte valid (runBytes valid rxFresh bs) b) := by
  obtain ⟨h1, h2⟩ := runBytes_inv valid bs rxFresh rxFresh_inv
  exact ⟨by omega, processByteChecked_eq valid _ b ⟨h1, h2⟩⟩

/-- C5: the receive hook writes its two output pointers exactly when a
complete assembled window passes the integrity check while draining the
available bytes (leftover bytes from prior invocations live in the
persistent state `s`).  On success the emitted command is the validated
16-byte buffer, the telemetry pointer is the snapshot, the cursor is
reset to 0 and draining stops (the unread suffix is left in the
channel); on an invocation with no valid packet the outputs stay `none`
and all available bytes are consumed. -/
theorem rtt_tuner_receive_contract (valid : List Nat → Bool)
    (snapshot : List Nat) :
    ∀ (avail : List Nat) (s : RxState), RxInv s →
      ((rtt_tuner_receive valid snapshot s avail).2.2 = none →
         (rtt_tuner_receive valid snapshot s avail).2.1 = [] ∧
           anySuccess valid s avail = false) ∧
      (∀ cmd snap,
         (rtt_tuner_receive valid snapshot s avail).2.2 = some (cmd, snap) →
           valid cmd = true ∧
           cmd = (rtt_tuner_receive valid snapshot s avail).1.command_packet ∧
           cmd.length = 16 ∧ snap = snapshot ∧
           (rtt_tuner_receive valid snapshot s avail).1.data_index = 0 ∧
           anySuccess valid s avail = true ∧
           ∃ pre, avail = pre ++ (rtt_tuner_receive valid snapshot s avail).2.1)
  | [], s, hInv => by
    constructor
    · intro _
      exact ⟨rfl, rfl⟩
    · intro cmd snap hsome
      simp [rtt_tuner_receive] at hsome
  | b :: rest, s, hInv => by
    have hInv1 := processByte_inv valid s b hInv
    cases hem : (processByte valid s b).2 with
    | true =>
      have hrec : rtt_tuner_receive valid snapshot s (b :: rest) =
          ((processByte valid s b).1, rest,
            some ((processByte valid s b).1.command_packet, snapshot)) := by
        simp [rtt_tuner_receive, hem]
      have hsucc := processByte_success valid s b hem
      rw [hrec]
      constructor
      · intro hnone
        simp at hnone
      · intro cmd snap hsome
        simp only [Option.some.injEq, Prod.mk.injEq] at hsome
        obtain ⟨hcmd, hsnap⟩ := hsome
        subst hcmd
        subst hsnap
        refine ⟨hsucc.1, rfl, hInv1.1, rfl, hsucc.2, ?_, ⟨[b], rfl⟩⟩
        show anySuccess valid s (b :: rest) = true
        simp [anySuccess, hem]
    | false =>
      have hrec : rtt_tuner_receive valid snapshot s (b :: rest) =
          rtt_tuner_receive valid snapshot (processByte valid s b).1 rest := by
        simp [rtt_tuner_receive, hem]
      have hany : anySuccess valid s (b :: rest) =
          anySuccess valid (processByte valid s b).1 rest := by
        simp [anySuccess, hem]
      have ih := rtt_tuner_receive_contract valid snapshot rest
        (processByte valid s b).1 hInv1
      rw [hrec, hany]
      constructor
      · exact ih.1
      · intro cmd snap hsome
        obtain ⟨hv, hcmd, hlen, hsnap, hidx, hany2, pre, hpre⟩ :=
          ih.2 cmd snap hsome
        exact ⟨hv, hcmd, hlen, hsnap, hidx, hany2, b :: pre,
          by rw [List.cons_append, ← hpre]⟩

/-- C5 witness: an always-accepting predicate with 16 available bytes
completes and validates a packet in one invocation. -/
theorem rtt_tuner_receive_contract_witness :
    RxInv rxFresh ∧
      (((rtt_tuner_receive (fun _ => true) [9] rxFresh
            (List.replicate 16 3)).2.2 = none →
          (rtt_tuner_receive (fun _ => true) [9] rxFresh
              (List.replicate 16 3)).2.1 = [] ∧
            anySuccess (fun _ => true) rxFresh (List.replicate 16 3) =
              false) ∧
        (∀ cmd snap,
          (rtt_tuner_receive (fun _ => true) [9] rxFresh
              (List.replicate 16 3)).2.2 = some (cmd, snap) →
            (fun _ => true : List Nat → Bool) cmd = true ∧
            cmd = (rtt_tuner_receive (fun _ => true) [9] rxFresh
                (List.replicate 16 3)).1.command_packet ∧
            cmd.length = 16 ∧ snap = [9] ∧
            (rtt_tuner_receive (fun _ => true) [9] rxFresh
                (List.replicate 16 3)).1.data_index = 0 ∧
            anySuccess (fun _ => true) rxFresh (List.replicate 16 3) =
              true ∧
            ∃ pre, List.replicate 16 3 = pre ++
              (rtt_tuner_receive (fun _ => true) [9] rxFresh
                  (List.replicate 16 3)).2.1)) :=
  ⟨⟨by decide, by decide⟩,
    rtt_tuner_receive_contract (fun _ => true) [9] (List.replicate 16 3)
      rxFresh ⟨by decide, by decide⟩⟩

/-- C2: resync correctness.  For a stream of at most 15 noise bytes
followed by one valid 16-byte packet, where no window at an earlier
alignment satisfies the integrity predicate, the reassembler (starting
from program start) consumes the whole stream and emits exactly that
packet — the final state holds the packet with cursor 0 and exactly one
resync shift per noise byte, and the single emission equals the packet. -/
theorem resync_emits_exactly_packet (valid : List Nat → Bool)
    (snapshot : List Nat) (ns pkt : List Nat) (hn : ns.length ≤ 15)
    (hp : pkt.length = 16) (hv : valid pkt = true)
    (hnoise : ∀ j, j < ns.length →
      valid (((ns ++ pkt).drop j).take 16) = false) :
    rtt_tuner_receive valid snapshot rxFresh (ns ++ pkt) =
      ({ command_packet := pkt, data_index := 0, shifts := ns.length }, [],
        some (pkt, snapshot)) := by
  have hpkt_ne : pkt ≠ [] := by
    intro h
    rw [h] at hp
    simp at hp
  have hsplit : ns ++ pkt = (ns ++ pkt.dropLast) ++ [pkt.getLast hpkt_ne] := by
    rw [List.append_assoc, List.dropLast_append_getLast]
  have hfrontlen : (ns ++ pkt.dropLast).length = ns.length + 15 := by
    rw [List.length_append, List.length_dropLast, hp]
  have hwf : window rxFresh = [] := rfl
  have hchk : ∀ j, j + 16 ≤ (window rxFresh ++ (ns ++ pkt.dropLast)).length →
      valid (((window rxFresh ++ (ns ++ pkt.dropLast)).drop j).take 16) =
        false := by
    intro j hj
    rw [hwf, List.nil_append] at hj ⊢
    have hjk : j < ns.length := by rw [hfrontlen] at hj; omega
    have hfront_take : ns ++ pkt.dropLast =
        (ns ++ pkt).take (ns.length + 15) := by
      rw [List.take_append_eq_append_take,
        List.take_of_length_le (by omega : ns.length ≤ ns.length + 15)]
      congr 1
      rw [show ns.length + 15 - ns.length = 15 from by omega,
        List.dropLast_eq_take, hp]
    rw [hfront_take, List.drop_take, List.take_take,
      show min 16 (ns.length + 15 - j) = 16 from by omega]
    exact hnoise j hjk
  obtain ⟨s1, hrecv1, hInv1, hcurs1, hwin1, hsh1⟩ :=
    drain_no_success valid snapshot (ns ++ pkt.dropLast) rxFresh rxFresh_inv
      hchk
  rw [hwf, List.nil_append] at hcurs1 hwin1 hsh1
  have hc1 : s1.data_index = 15 := by rw [hcurs1, hfrontlen]; omega
  have hw1 : window s1 = pkt.dropLast := by
    rw [hwin1, hfrontlen,
      show ns.length + 15 - 15 = ns.length from by omega]
    exact List.drop_left ns pkt.dropLast
  have hsh1' : s1.shifts = ns.length := by
    rw [hsh1, hfrontlen]
    show 0 + (ns.length + 15 - 15) = ns.length
    omega
  rw [hsplit, rtt_tuner_receive_append valid snapshot (ns ++ pkt.dropLast)
    rxFresh s1 [pkt.getLast hpkt_ne] hrecv1]
  have hfull : valid (window s1 ++ [pkt.getLast hpkt_ne]) = true := by
    rw [hw1, List.dropLast_append_getLast]
    exact hv
  have hpb := processByte_full_success valid s1 (pkt.getLast hpkt_ne)
    hInv1.1 hc1 hfull
  have hem : (processByte valid s1 (pkt.getLast hpkt_ne)).2 = true := by
    rw [hpb]
  rw [show rtt_tuner_receive valid snapshot s1 [pkt.getLast hpkt_ne] =
      ((processByte valid s1 (pkt.getLast hpkt_ne)).1, [],
        some ((processByte valid s1 (pkt.getLast hpkt_ne)).1.command_packet,
          snapshot)) from by simp [rtt_tuner_receive, hem]]
  rw [hpb, hw1, List.dropLast_append_getLast, hsh1']

/-- C2 witness: the spec's concrete scenario — one noise byte `0xAA`
followed by a valid 16-byte packet (here: the unique packet accepted by
the predicate), yielding exactly one emitted command equal to the
16-byte suffix with exactly 1 resync shift. -/
theorem resync_emits_exactly_packet_witness :
    ([0xAA] : List Nat).length ≤ 15 ∧
      ([0xBB, 1, 2, 3, 4, 5, 6, 7, 8, 9, 10, 11, 12, 13, 14, 15] :
        List Nat).length = 16 ∧
      (fun w => decide
          (w = [0xBB, 1, 2, 3, 4, 5, 6, 7, 8, 9, 10, 11, 12, 13, 14, 15]) :
        List Nat → Bool)
        [0xBB, 1, 2, 3, 4, 5, 6, 7, 8, 9, 10, 11, 12, 13, 14, 15] = true ∧
      (∀ j, j < ([0xAA] : List Nat).length →
        (fun w => decide
            (w = [0xBB, 1, 2, 3, 4, 5, 6, 7, 8, 9, 10, 11, 12, 13, 14, 15]) :
          List Nat → Bool)
          ((([0xAA] ++
              [0xBB, 1, 2, 3, 4, 5, 6, 7, 8, 9, 10, 11, 12, 13, 14,
                15]).drop j).take 16) = false) ∧
      rtt_tuner_receive
          (fun w => decide
            (w = [0xBB, 1, 2, 3, 4, 5, 6, 7, 8, 9, 10, 11, 12, 13, 14, 15]))
          [7] rxFresh
          ([0xAA] ++
            [0xBB, 1, 2, 3, 4, 5, 6, 7, 8, 9, 10, 11, 12, 13, 14, 15]) =
        ({ command_packet :=
            [0xBB, 1, 2, 3, 4, 5, 6, 7, 8, 9, 10, 11, 12, 13, 14, 15],
           data_index := 0, shifts := ([0xAA] : List Nat).length }, [],
          some ([0xBB, 1, 2, 3, 4, 5, 6, 7, 8, 9, 10, 11, 12, 13, 14, 15],
            [7])) :=
  ⟨by decide, by decide, by decide, by decide,
    resync_emits_exactly_packet
      (fun w => decide
        (w = [0xBB, 1, 2, 3, 4, 5, 6, 7, 8, 9, 10, 11, 12, 13, 14, 15]))
      [7] [0xAA] [0xBB, 1, 2, 3, 4, 5, 6, 7, 8, 9, 10, 11, 12, 13, 14, 15]
      (by decide) (by decide) (by decide) (by decide)⟩

/-- Helper: inside the loop trace, every `process` event sits in a block
`busyCheck false, process, tuner, scan`: the idle observation is the
event immediately before it, and the tuner-sync and next scan are the
two events after it, in that order. -/
theorem schedTrace_process_block :
    ∀ (bs : List Bool) (i : Nat),
      (schedTrace bs)[i]? = some Ev.process →
      ∃ k, i = k + 1 ∧
        (schedTrace bs)[k]? = some (Ev.busyCheck false) ∧
        (schedTrace bs)[k + 2]? = some Ev.tuner ∧
        (schedTrace bs)[k + 3]? = some Ev.scan
  | [], i, h => by simp [schedTrace] at h
  | true :: bs, i, h => by
    have he : schedTrace (true :: bs) =
        Ev.busyCheck true :: schedTrace bs := rfl
    cases i with
    | zero => rw [he] at h; simp at h
    | succ j =>
      rw [he, List.getElem?_cons_succ] at h
      obtain ⟨k, hk, ha, hb, hc⟩ := schedTrace_process_block bs j h
      refine ⟨k + 1, by omega, ?_, ?_, ?_⟩
      · rw [he, List.getElem?_cons_succ]; exact ha
      · rw [he]; simp only [List.getElem?_cons_succ]; exact hb
      · rw [he]; simp only [List.getElem?_cons_succ]; exact hc
  | false :: bs, i, h => by
    have he : schedTrace (false :: bs) =
        Ev.busyCheck false :: Ev.process :: Ev.tuner :: Ev.scan ::
          schedTrace bs := rfl
    match i with
    | 0 => rw [he] at h; simp at h
    | 1 =>
      refine ⟨0, rfl, ?_, ?_, ?_⟩ <;>
        · rw [he]; simp
    | 2 => rw [he] at h; simp at h
    | 3 => rw [he] at h; simp at h
    | j + 4 =>
      rw [he] at h
      simp only [List.getElem?_cons_succ] at h
      obtain ⟨k, hk, ha, hb, hc⟩ := schedTrace_process_block bs j h
      refine ⟨k + 4, by omega, ?_, ?_, ?_⟩
      · rw [he]; simp only [List.getElem?_cons_succ]; exact ha
      · rw [he]; simp only [List.getElem?_cons_succ]; exact hb
      · rw [he]; simp only [List.getElem?_cons_succ]; exact hc

/-- Helper: inside the loop trace, every `scan` event closes a block
`busyCheck false, process, tuner, scan`. -/
theorem schedTrace_scan_block :
    ∀ (bs : List Bool) (i : Nat),
      (schedTrace bs)[i]? = some Ev.scan →
      ∃ k, i = k + 3 ∧
        (schedTrace bs)[k]? = some (Ev.busyCheck false) ∧
        (schedTrace bs)[k + 1]? = some Ev.process ∧
        (schedTrace bs)[k + 2]? = some Ev.tuner
  | [], i, h => by simp [schedTrace] at h
  | true :: bs, i, h => by
    have he : schedTrace (true :: bs) =
        Ev.busyCheck true :: schedTrace bs := rfl
    cases i with
    | zero => rw [he] at h; simp at h
    | succ j =>
      rw [he, List.getElem?_cons_succ] at h
      obtain ⟨k, hk, ha, hb, hc⟩ := schedTrace_scan_block bs j h
      refine ⟨k + 1, by omega, ?_, ?_, ?_⟩
      · rw [he, List.getElem?_cons_succ]; exact ha
      · rw [he]; simp only [List.getElem?_cons_succ]; exact hb
      · rw [he]; simp only [List.getElem?_cons_succ]; exact hc
  | false :: bs, i, h => by
    have he : schedTrace (false :: bs) =
        Ev.busyCheck false :: Ev.process :: Ev.tuner :: Ev.scan ::
          schedTrace bs := rfl
    match i with
    | 0 => rw [he] at h; simp at h
    | 1 => rw [he] at h; simp at h
    | 2 => rw [he] at h; simp at h
    | 3 =>
      refine ⟨0, rfl, ?_, ?_, ?_⟩ <;>
        · rw [he]; simp
    | j + 4 =>
      rw [he] at h
      simp only [List.getElem?_cons_succ] at h
      obtain ⟨k, hk, ha, hb, hc⟩ := schedTrace_scan_block bs j h
      refine ⟨k + 4, by omega, ?_, ?_, ?_⟩
      · rw [he]; simp only [List.getElem?_cons_succ]; exact ha
      · rw [he]; simp only [List.getElem?_cons_succ]; exact hb
      · rw [he]; simp only [List.getElem?_cons_succ]; exact hc

/-- C9: scheduler ordering over the trace of `main`'s loop, for every
cycle and every busy-poll history.  Every `process` call sits right
after a not-busy observation and is followed by the tuner-sync and then
the next `scan`, and every scan other than the initial one happens
strictly after the `process` and tuner-sync of its cycle. -/
theorem scheduler_order (bs : List Bool) (i : Nat) :
    ((mainTrace bs)[i]? = some Ev.process →
      ∃ k, i = k + 1 ∧
        (mainTrace bs)[k]? = some (Ev.busyCheck false) ∧
        (mainTrace bs)[k + 2]? = some Ev.tuner ∧
        (mainTrace bs)[k + 3]? = some Ev.scan) ∧
    ((mainTrace bs)[i]? = some Ev.scan → 1 ≤ i →
      ∃ k, i = k + 3 ∧
        (mainTrace bs)[k + 1]? = some Ev.process ∧
        (mainTrace bs)[k + 2]? = some Ev.tuner) := by
  have he : mainTrace bs = Ev.scan :: schedTrace bs := rfl
  constructor
  · intro h
    cases i with
    | zero => rw [he] at h; simp at h
    | succ j =>
      rw [he, List.getElem?_cons_succ] at h
      obtain ⟨k, hk, ha, hb, hc⟩ := schedTrace_process_block bs j h
      refine ⟨k + 1, by omega, ?_, ?_, ?_⟩
      · rw [he, List.getElem?_cons_succ]; exact ha
      · rw [he]; simp only [List.getElem?_cons_succ]; exact hb
      · rw [he]; simp only [List.getElem?_cons_succ]; exact hc
  · intro h hi
    cases i with
    | zero => omega
    | succ j =>
      rw [he, List.getElem?_cons_succ] at h
      obtain ⟨k, hk, ha, hb, hc⟩ := schedTrace_scan_block bs j h
      refine ⟨k + 1, by omega, ?_, ?_⟩
      · rw [he]; simp only [List.getElem?_cons_succ]; exact hb
      · rw [he]; simp only [List.getElem?_cons_succ]; exact hc

/-- C9 witness: one idle poll — the trace
`[scan, busyCheck false, process, tuner, scan]` — instantiated at its
`process` (index 2) and non-initial `scan` (index 4). -/
theorem scheduler_order_witness :
    (mainTrace [false])[2]? = some Ev.process ∧
      (∃ k, 2 = k + 1 ∧
        (mainTrace [false])[k]? = some (Ev.busyCheck false) ∧
        (mainTrace [false])[k + 2]? = some Ev.tuner ∧
        (mainTrace [false])[k + 3]? = some Ev.scan) ∧
      (mainTrace [false])[4]? = some Ev.scan ∧ 1 ≤ 4 ∧
      (∃ k, 4 = k + 3 ∧
        (mainTrace [false])[k + 1]? = some Ev.process ∧
        (mainTrace [false])[k + 2]? = some Ev.tuner) :=
  ⟨by decide, (scheduler_order [false] 2).1 (by decide), by decide,
    by decide, (scheduler_order [false] 4).2 (by decide) (by decide)⟩

end CapsenseRtt
